import Mathlib

/-!
Shallow embedding of the `secure` Go package (rusq/secure, file secure.go).

Conventions of the embedding:
* Go byte slices and Go strings are modelled as `List Nat`, every element
  being a byte value `< 256` (stated as a hypothesis where it matters).
* Fallible Go functions returning `(T, error)` become `Except SecError T`
  or a pair `T × Option SecError` when the Go code can return both a value
  and an error at once (as `decrypt` does for `ErrNotEncrypted`).
* A Go `panic` is modelled as a dedicated constructor (`DKResult.panicked`,
  `GoVal.panicked`).
* The AEAD engine (Go standard library `crypto/aes` + `crypto/cipher` GCM,
  external to the repository) is a parameter: a `GCMImpl` provides, per key,
  a seal and an open function.  `aes.NewCipher` accepts exactly the key
  sizes 16, 24 and 32 bytes, per its documentation; `cipher.NewGCM` then
  succeeds on an AES block cipher.
* The random nonce drawn in `encrypt` is passed in as an explicit argument.
* The process-wide mutable salt and signature are passed as explicit
  arguments; `defaultSalt` and `defaultSignature` are the package defaults.
-/

namespace Secure

/-- Constants of secure.go: nonce size, key size, additional-data length
field size, max additional data size, salt size. -/
def nonceSz : Nat := 12

def keySz : Nat := 32

def adlSz : Nat := 1

def maxDataSz : Nat := 255

def SaltSz : Nat := 256

/-- The error values and error types of secure.go, by kind.  Sentinel
errors (`errors.New` / `fmt.Errorf` values) are distinct constructors;
`corruptData` models `*CorruptError` carrying the offending bytes;
`cipherError` models `*CipherError`; `base64Error` models
`base64.CorruptInputError` from `DecodeString`; `aesKeySizeError` models
`aes.KeySizeError` returned by `aes.NewCipher` for an invalid key length. -/
inductive SecError where
  | notEncrypted
  | noEncryptionKey
  | dataOverflow
  | invalidKeySz
  | emptyPassphrase
  | passphraseTooLong
  | emptyPlaintext
  | encryptDataOverflow
  | packEmptyNonce
  | packNoCiphertext
  | unpackEmptyInput
  | corruptData (value : List Nat)
  | cipherError
  | base64Error
  | aesKeySizeError (n : Nat)
  deriving DecidableEq, Repr

/-- Result of `deriveKey`: a key, a recoverable error, or the `panic` on
the internal-consistency check. -/
inductive DKResult where
  | panicked
  | error (e : SecError)
  | ok (key : List Nat)
  deriving DecidableEq, Repr

/-- Result of a Go function that may panic (through a callee). -/
inductive GoVal (α : Type) where
  | panicked
  | ret (a : α)
  deriving DecidableEq, Repr

/-- The default package signature `"SEC."` as ASCII bytes. -/
def defaultSignature : List Nat := [83, 69, 67, 46]

/-- The default 256-byte salt array of secure.go. -/
def defaultSalt : List Nat :=
  [0x51, 0xfc, 0xd8, 0xf9, 0xab, 0x85, 0x93, 0x5d, 0xd2, 0x85, 0x2e, 0x78,
   0x3f, 0x80, 0x3a, 0xce, 0x19, 0xf1, 0x20, 0x75, 0x2a, 0xdd, 0x7b, 0x5c,
   0xe6, 0x17, 0xdb, 0x4b, 0x72, 0xc7, 0x83, 0x06, 0x10, 0x91, 0x70, 0x33,
   0x42, 0x0d, 0x75, 0xf9, 0xb8, 0x14, 0x39, 0x5a, 0xcf, 0xae, 0x6a, 0xec,
   0x7d, 0x3a, 0x2a, 0x87, 0xf8, 0x86, 0xa8, 0xea, 0x25, 0x7e, 0xb5, 0xf9,
   0x61, 0xe8, 0xa5, 0x5e, 0x20, 0x2f, 0xa2, 0x99, 0x85, 0xa3, 0xcc, 0xcd,
   0x5c, 0x39, 0x1b, 0x6d, 0x1b, 0x17, 0xa9, 0xb4, 0xeb, 0x95, 0xdd, 0xfb,
   0xbe, 0x3c, 0x2c, 0x3b, 0xe9, 0x7d, 0x5d, 0x3e, 0x78, 0x37, 0x23, 0xda,
   0xa5, 0x35, 0xd8, 0x36, 0xa7, 0x42, 0xd6, 0xdb, 0x38, 0xba, 0x17, 0x12,
   0x8c, 0x76, 0x83, 0x38, 0xd8, 0x23, 0x02, 0x38, 0x26, 0xe3, 0xe7, 0xe2,
   0x5e, 0xcb, 0xc9, 0x90, 0xd2, 0x46, 0x27, 0x84, 0x77, 0x41, 0x6b, 0xb5,
   0x7a, 0x4a, 0x4f, 0x45, 0xaa, 0xab, 0x50, 0xa7, 0x58, 0x35, 0xe8, 0xa9,
   0x27, 0xc1, 0xb8, 0xa9, 0x32, 0x03, 0x02, 0x3d, 0x19, 0x77, 0x5a, 0xd2,
   0x0c, 0x52, 0x08, 0x01, 0xfa, 0xb9, 0xb2, 0x86, 0xfd, 0x24, 0x73, 0xc3,
   0x39, 0xde, 0x4f, 0x86, 0x93, 0x19, 0xd7, 0xd5, 0x65, 0x00, 0xf1, 0x2d,
   0x0c, 0x6f, 0x3c, 0x21, 0xd0, 0xc6, 0x27, 0x99, 0x05, 0x19, 0x7c, 0x0d,
   0x57, 0x33, 0x4f, 0x8c, 0x2f, 0x72, 0x97, 0x5a, 0xfa, 0x08, 0x51, 0x51,
   0xbc, 0x56, 0xd4, 0xc4, 0xed, 0x01, 0xeb, 0xe2, 0x6a, 0x82, 0xc6, 0x4c,
   0x09, 0x76, 0xe3, 0xfa, 0x87, 0xe2, 0xd7, 0x68, 0x13, 0xa5, 0xcf, 0x32,
   0xa2, 0x16, 0x6c, 0x53, 0x50, 0x2d, 0xd2, 0x58, 0xe4, 0x67, 0x18, 0x7b,
   0x8a, 0x84, 0xe3, 0xa4, 0x49, 0x14, 0x64, 0xd5, 0x06, 0x68, 0xc7, 0x45,
   0x68, 0xeb, 0x4a, 0xb0]

/-- All elements of the list are byte values. -/
def bytesValid (l : List Nat) : Prop := ∀ b ∈ l, b < 256

instance (l : List Nat) : Decidable (bytesValid l) := by
  unfold bytesValid; infer_instance

/-- `deriveKey` of secure.go: interpolates the passphrase to the key size
and xors it with the salt, starting at offset `pass[0]`.  The two length
checks come first; the (intended unreachable) `panic` branch follows. -/
def deriveKey (salt pass : List Nat) : DKResult :=
  if pass.length = 0 then .error .emptyPassphrase
  else if pass.length > keySz then .error .passphraseTooLong
  else if SaltSz ≤ pass.getD 0 0 then .panicked
  else .ok ((List.range keySz).map fun i =>
    (pass.getD (i % pass.length) 0) ^^^
      (salt.getD ((i + pass.getD 0 0) % SaltSz) 0))

/-- A GCM AEAD instance bound to a key: `sealFn nonce plaintext ad` and
`openFn nonce ciphertext ad` (`none` models an authentication failure of
`gcm.Open`). -/
structure AEAD where
  sealFn : List Nat → List Nat → List Nat → List Nat
  openFn : List Nat → List Nat → List Nat → Option (List Nat)

/-- The AEAD engine family: one AEAD instance per key.  This stands for
`cipher.NewGCM(aes.NewCipher(key))` of the Go standard library. -/
structure GCMImpl where
  gcm : List Nat → AEAD

/-- `initGCM` of secure.go: `aes.NewCipher` accepts key lengths 16, 24 and
32 bytes only (returning `aes.KeySizeError` otherwise, per its contract);
`cipher.NewGCM` then succeeds on the AES block. -/
def initGCM (B : GCMImpl) (key : List Nat) : Except SecError AEAD :=
  if key.length = 16 ∨ key.length = 24 ∨ key.length = 32 then .ok (B.gcm key)
  else .error (.aesKeySizeError key.length)

/-- The `ciphermsg` struct of secure.go. -/
structure Ciphermsg where
  nonce : List Nat
  ciphertext : List Nat
  additionalData : List Nat
  deriving DecidableEq, Repr

/-- The byte layout produced by `pack`:
`byte(len(ad)) || ad || nonce || ciphertext`. -/
def packBytes (ad nonce ciphertext : List Nat) : List Nat :=
  ad.length :: (ad ++ nonce ++ ciphertext)

/-- `pack` of secure.go. -/
def pack (cm : Ciphermsg) : Except SecError (List Nat) :=
  if cm.nonce.length = 0 then .error .packEmptyNonce
  else if cm.ciphertext.length = 0 then .error .packNoCiphertext
  else if cm.additionalData.length > maxDataSz then .error .dataOverflow
  else .ok (packBytes cm.additionalData cm.nonce cm.ciphertext)

/-- `unpack` of secure.go.  `payloadSz` is Go `int` arithmetic and may be
negative, hence the `Int` comparisons. -/
def unpack (packed : List Nat) : Except SecError Ciphermsg :=
  match packed with
  | [] => .error .unpackEmptyInput
  | p0 :: rest =>
    let payloadSz : Int := (rest.length : Int) - (nonceSz : Int)
    if (p0 : Int) > payloadSz ∨ payloadSz - (p0 : Int) = 0 then
      .error (.corruptData (p0 :: rest))
    else
      .ok { nonce := (rest.drop p0).take nonceSz
            ciphertext := rest.drop (p0 + nonceSz)
            additionalData := if p0 > 0 then rest.take p0 else [] }

/-- The 64 alphabet bytes of standard base64, `A-Z a-z 0-9 + /`. -/
def b64Table : List Nat :=
  [65, 66, 67, 68, 69, 70, 71, 72, 73, 74, 75, 76, 77, 78, 79, 80, 81, 82,
   83, 84, 85, 86, 87, 88, 89, 90,
   97, 98, 99, 100, 101, 102, 103, 104, 105, 106, 107, 108, 109, 110, 111,
   112, 113, 114, 115, 116, 117, 118, 119, 120, 121, 122,
   48, 49, 50, 51, 52, 53, 54, 55, 56, 57, 43, 47]

/-- Sextet value to alphabet byte. -/
def tbl (s : Nat) : Nat := b64Table.getD s 0

/-- Alphabet byte back to sextet value, scanning the table. -/
def decCharAux : List Nat → Nat → Nat → Option Nat
  | [], _, _ => none
  | t :: ts, c, i => if t = c then some i else decCharAux ts c (i + 1)

def decChar (c : Nat) : Option Nat := decCharAux b64Table c 0

/-- Standard base64 encoding (RFC 4648, with `=` padding), as performed by
Go `base64.StdEncoding.EncodeToString`. -/
def encodeB64 : List Nat → List Nat
  | [] => []
  | [a] => [tbl (a / 4), tbl (a % 4 * 16), 61, 61]
  | [a, b] => [tbl (a / 4), tbl (a % 4 * 16 + b / 16), tbl (b % 16 * 4), 61]
  | a :: b :: c :: rest =>
      tbl (a / 4) :: tbl (a % 4 * 16 + b / 16) :: tbl (b % 16 * 4 + c / 64) ::
        tbl (c % 64) :: encodeB64 rest

def isNewlineByte (b : Nat) : Bool := b = 10 || b = 13

/-- Decoding of the newline-stripped input in groups of four characters;
padding may only close the final group. -/
def decodeGroups : List Nat → Except SecError (List Nat)
  | [] => .ok []
  | a :: b :: c :: d :: rest =>
    match decChar a, decChar b with
    | some x, some y =>
      if c = 61 then
        if d = 61 && rest.isEmpty then .ok [x * 4 + y / 16]
        else .error .base64Error
      else
        match decChar c with
        | some z =>
          if d = 61 then
            if rest.isEmpty then .ok [x * 4 + y / 16, y % 16 * 16 + z / 4]
            else .error .base64Error
          else
            match decChar d with
            | some w =>
              match decodeGroups rest with
              | .ok tail => .ok ((x * 4 + y / 16) :: (y % 16 * 16 + z / 4) ::
                                   (z % 4 * 64 + w) :: tail)
              | .error e => .error e
            | none => .error .base64Error
        | none => .error .base64Error
    | _, _ => .error .base64Error
  | _ => .error .base64Error

/-- Go `base64.StdEncoding.DecodeString`: newline bytes (`\r`, `\n`) are
ignored, then the input is consumed in groups of four. -/
def decodeB64 (s : List Nat) : Except SecError (List Nat) :=
  decodeGroups (s.filter fun b => !(isNewlineByte b))

/-- The ASCII whitespace bytes trimmed by Go `strings.TrimSpace` (the
armored alphabet is ASCII, so the Unicode cases do not arise). -/
def isSpaceByte (b : Nat) : Bool :=
  b = 32 || b = 9 || b = 10 || b = 11 || b = 12 || b = 13

/-- Go `strings.TrimSpace` on byte lists. -/
def trimSpace (s : List Nat) : List Nat :=
  ((s.dropWhile isSpaceByte).reverse.dropWhile isSpaceByte).reverse

/-- `armor` of secure.go: signature plus standard base64 of the packed
bytes. -/
def armor (sig packed : List Nat) : List Nat := sig ++ encodeB64 packed

/-- `unarmor` of secure.go: trim whitespace, check the signature, base64
decode the remainder. -/
def unarmor (sig s : List Nat) : Except SecError (List Nat) :=
  if (trimSpace s).length < sig.length ∨ (trimSpace s).take sig.length ≠ sig then
    .error .notEncrypted
  else decodeB64 ((trimSpace s).drop sig.length)

/-- `encrypt` of secure.go.  The random nonce drawn from `rand.Reader` is
an explicit argument.  Returns the Go pair `(string, error)`. -/
def encrypt (B : GCMImpl) (sig plaintext key additionalData nonce : List Nat) :
    List Nat × Option SecError :=
  if key.length = 0 then ([], some .noEncryptionKey)
  else if key.length ≠ keySz then ([], some .invalidKeySz)
  else if plaintext.length = 0 then ([], some .emptyPlaintext)
  else if additionalData.length > maxDataSz then ([], some .encryptDataOverflow)
  else
    match initGCM B key with
    | .error e => ([], some e)
    | .ok aead =>
      let ciphertext := aead.sealFn nonce plaintext additionalData
      match pack ⟨nonce, ciphertext, additionalData⟩ with
      | .error e => ([], some e)
      | .ok packed => (armor sig packed, none)

/-- `decrypt` of secure.go.  Returns the Go pair `(string, error)`: on
`ErrNotEncrypted` the original string is returned along with the error. -/
def decrypt (B : GCMImpl) (sig s key : List Nat) : List Nat × Option SecError :=
  match unarmor sig s with
  | .error e => if e = .notEncrypted then (s, some .notEncrypted) else ([], some e)
  | .ok packed =>
    if key.length = 0 then ([], some .noEncryptionKey)
    else
      match unpack packed with
      | .error e => ([], some e)
      | .ok cm =>
        match initGCM B key with
        | .error e => ([], some e)
        | .ok aead =>
          match aead.openFn cm.nonce cm.ciphertext cm.additionalData with
          | none => ([], some .cipherError)
          | some plaintext => (plaintext, none)

/-- `EncryptWithPassphrase` of secure.go: derive the key, then `encrypt`
with nil additional data.  A panic in `deriveKey` propagates. -/
def EncryptWithPassphrase (B : GCMImpl) (salt sig plaintext pass nonce : List Nat) :
    GoVal (List Nat × Option SecError) :=
  match deriveKey salt pass with
  | .panicked => .panicked
  | .error e => .ret ([], some e)
  | .ok key => .ret (encrypt B sig plaintext key [] nonce)

/-- `DecryptWithPassphrase` of secure.go. -/
def DecryptWithPassphrase (B : GCMImpl) (salt sig s pass : List Nat) :
    GoVal (List Nat × Option SecError) :=
  match deriveKey salt pass with
  | .panicked => .panicked
  | .error e => .ret ([], some e)
  | .ok key => .ret (decrypt B sig s key)

/-- `IsDecipherError` of secure.go: true exactly on `*CipherError` and
`*CorruptError`. -/
def IsDecipherError (e : SecError) : Bool :=
  match e with
  | .cipherError => true
  | .corruptData _ => true
  | _ => false

/-- Whether an `unpack`/`decrypt` failure is the `CorruptData` kind. -/
def isCorruptKind (e : SecError) : Bool :=
  match e with
  | .corruptData _ => true
  | _ => false

/-- A concrete executable AEAD used to instantiate witnesses: seal shifts
each plaintext byte by one and appends a one-byte tag over all inputs;
open checks the tag.  It satisfies the GCM contract instances the theorems
assume, on the concrete inputs of the witnesses. -/
def toyTag (key nonce pt ad : List Nat) : Nat :=
  (key.sum + 3 * nonce.sum + 5 * pt.sum + 7 * ad.sum + 11 * pt.length + 13) % 256

def toyAEAD (key : List Nat) : AEAD where
  sealFn := fun nonce pt ad =>
    pt.map (fun b => (b + 1) % 256) ++ [toyTag key nonce pt ad]
  openFn := fun nonce ct ad =>
    if ct.isEmpty then none
    else
      let body := ct.take (ct.length - 1)
      let pt := body.map fun b => (b + 255) % 256
      if ct = body ++ [toyTag key nonce pt ad] then some pt else none

def toyGCM : GCMImpl where
  gcm := toyAEAD

/-- Equality of `Except` results is decidable when both components are. -/
instance {ε α : Type} [DecidableEq ε] [DecidableEq α] : DecidableEq (Except ε α) :=
  fun a b =>
  match a, b with
  | .error e, .error f =>
    if h : e = f then .isTrue (by rw [h])
    else .isFalse (fun hh => h (Except.error.inj hh))
  | .ok x, .ok y =>
    if h : x = y then .isTrue (by rw [h])
    else .isFalse (fun hh => h (Except.ok.inj hh))
  | .error _, .ok _ => .isFalse (fun hh => Except.noConfusion hh)
  | .ok _, .error _ => .isFalse (fun hh => Except.noConfusion hh)

/-- Whether `deriveKey` returned a key. -/
def DKResult.isOk : DKResult → Bool
  | .ok _ => true
  | _ => false

/-- Flip bit `k` of the byte at position `j`. -/
def flipBit (l : List Nat) (j k : Nat) : List Nat :=
  l.set j ((l.getD j 0) ^^^ 2 ^ k)

end Secure

namespace Secure

/-! ### Facts about `deriveKey` (claims C3 and C9) -/

lemma deriveKey_ok_iff (salt pass : List Nat) (hv : bytesValid pass)
    (h1 : pass.length ≠ 0) (h2 : pass.length ≤ 32) :
    deriveKey salt pass = .ok ((List.range keySz).map fun i =>
      (pass.getD (i % pass.length) 0) ^^^
        (salt.getD ((i + pass.getD 0 0) % SaltSz) 0)) := by
  have hoff : pass.getD 0 0 < 256 := by
    have : pass.getD 0 0 ∈ pass := by
      have hl : 0 < pass.length := Nat.pos_of_ne_zero h1
      rw [List.getD_eq_getElem pass 0 hl]
      exact List.getElem_mem hl
    exact hv _ this
  unfold deriveKey
  rw [if_neg h1, if_neg (by simpa [keySz] using Nat.not_lt.mpr h2),
    if_neg (by simp only [SaltSz]; omega)]

/-- C3: `deriveKey` is a pure function of passphrase and salt; it fails with
`EmptyPassphrase` exactly on the empty passphrase and with
`PassphraseTooLong` exactly on a passphrase longer than 32 bytes, and
otherwise returns exactly 32 bytes with
`key[i] = pass[i % len(pass)] XOR salt[(i + pass[0]) % 256]`. -/
theorem c3_deriveKey (salt pass : List Nat) (hv : bytesValid pass) :
    (deriveKey salt pass = .error .emptyPassphrase ↔ pass.length = 0) ∧
    (deriveKey salt pass = .error .passphraseTooLong ↔ pass.length > 32) ∧
    (pass.length ≠ 0 → pass.length ≤ 32 → (deriveKey salt pass).isOk = true) ∧
    (∀ key, deriveKey salt pass = .ok key → key.length = 32 ∧
      ∀ i, i < 32 → key.getD i 0 =
        (pass.getD (i % pass.length) 0) ^^^
          (salt.getD ((i + pass.getD 0 0) % 256) 0)) := by
  refine ⟨?_, ?_, ?_, ?_⟩
  · constructor
    · intro h
      by_contra hne
      rw [deriveKey_ok_iff salt pass hv hne] at h
      · exact DKResult.noConfusion h
      · by_contra h2
        unfold deriveKey at h
        rw [if_neg hne, if_pos (by simp only [keySz]; omega)] at h
        exact SecError.noConfusion (DKResult.error.inj h)
    · intro h; unfold deriveKey; rw [if_pos h]
  · constructor
    · intro h
      by_contra hne
      rcases Nat.eq_zero_or_pos pass.length with h0 | h0
      · unfold deriveKey at h; rw [if_pos h0] at h
        exact SecError.noConfusion (DKResult.error.inj h)
      · rw [deriveKey_ok_iff salt pass hv (by omega) (by omega)] at h
        exact DKResult.noConfusion h
    · intro h; unfold deriveKey
      rw [if_neg (by omega), if_pos (by simp only [keySz]; omega)]
  · intro h1 h2
    rw [deriveKey_ok_iff salt pass hv h1 h2]; rfl
  · intro key hk
    rw [deriveKey_ok_iff salt pass hv ?_ ?_] at hk
    · have hkey := DKResult.ok.inj hk
      subst hkey
      constructor
      · simp [keySz]
      · intro i hi
        rw [List.getD_eq_getElem _ 0 (by simp [keySz]; omega)]
        simp [keySz, SaltSz]
    · intro h0
      unfold deriveKey at hk; rw [if_pos h0] at hk
      exact DKResult.noConfusion hk
    · by_contra h2
      unfold deriveKey at hk
      have h0 : pass.length ≠ 0 := by omega
      rw [if_neg h0, if_pos (by simp only [keySz]; omega)] at hk
      exact DKResult.noConfusion hk

/-- Witness for C3 at a concrete passphrase. -/
theorem c3_deriveKey_witness : (deriveKey defaultSalt [65, 66]).isOk = true :=
  (c3_deriveKey defaultSalt [65, 66] (by decide)).2.2.1 (by decide) (by decide)

/-- C9: for byte-valued passphrases the `panic` branch of `deriveKey` is
unreachable (the start offset `pass[0]` is below the 256-byte salt size),
so `deriveKey` always returns normally; in particular a non-empty
passphrase of at most 32 bytes yields a key. -/
theorem c9_derive_no_panic (salt pass : List Nat) (hv : bytesValid pass) :
    deriveKey salt pass ≠ .panicked ∧
    (pass ≠ [] → pass.length ≤ 32 → (deriveKey salt pass).isOk = true) := by
  constructor
  · by_cases h0 : pass.length = 0
    · unfold deriveKey; rw [if_pos h0]; simp
    · by_cases h2 : pass.length > keySz
      · unfold deriveKey; rw [if_neg h0, if_pos h2]; simp
      · rw [deriveKey_ok_iff salt pass hv h0 (by simp only [keySz] at h2; omega)]
        simp
  · intro h1 h2
    rw [deriveKey_ok_iff salt pass hv (by simpa using h1) h2]; rfl

/-- Witness for C9 at a concrete passphrase. -/
theorem c9_derive_no_panic_witness :
    deriveKey defaultSalt [0, 0, 0, 0, 0, 0] ≠ .panicked :=
  (c9_derive_no_panic defaultSalt [0, 0, 0, 0, 0, 0] (by decide)).1

/-! ### Facts about `pack` (claim C4) -/

/-- C4: with non-empty nonce and ciphertext and at most 255 bytes of
additional data, `pack` returns exactly
`byte(len(ad)) || ad || nonce || ciphertext` (leading byte 0 for empty
additional data); it fails with `DataOverflow` on oversized additional
data and with the generic pack errors on an empty nonce or ciphertext. -/
theorem c4_pack (cm : Ciphermsg) :
    (cm.nonce ≠ [] → cm.ciphertext ≠ [] → cm.additionalData.length ≤ 255 →
      pack cm = .ok (cm.additionalData.length ::
        (cm.additionalData ++ cm.nonce ++ cm.ciphertext)) ∧
      (cm.additionalData = [] →
        pack cm = .ok (0 :: (cm.nonce ++ cm.ciphertext)))) ∧
    (cm.additionalData.length > 255 → cm.nonce ≠ [] → cm.ciphertext ≠ [] →
      pack cm = .error .dataOverflow) ∧
    (cm.nonce = [] → pack cm = .error .packEmptyNonce) ∧
    (cm.ciphertext = [] → cm.nonce ≠ [] → pack cm = .error .packNoCiphertext) := by
  refine ⟨?_, ?_, ?_, ?_⟩
  · intro hn hc ha
    have h1 : ¬cm.nonce.length = 0 := by simpa using hn
    have h2 : ¬cm.ciphertext.length = 0 := by simpa using hc
    have h3 : ¬cm.additionalData.length > maxDataSz := by
      simp only [maxDataSz]; omega
    constructor
    · unfold pack packBytes
      rw [if_neg h1, if_neg h2, if_neg h3]
    · intro had
      unfold pack packBytes
      rw [if_neg h1, if_neg h2, if_neg h3, had]
      simp
  · intro ha hn hc
    unfold pack
    rw [if_neg (by simpa using hn), if_neg (by simpa using hc),
      if_pos (by simp only [maxDataSz]; omega)]
  · intro hn
    unfold pack; rw [if_pos (by simp [hn])]
  · intro hc hn
    unfold pack
    rw [if_neg (by simpa using hn), if_pos (by simp [hc])]

/-- Witness for C4 at a concrete message. -/
theorem c4_pack_witness :
    pack ⟨[1, 2, 3, 4, 5, 6, 7, 8, 9, 10, 11, 12], [99], []⟩ =
      .ok (0 :: ([1, 2, 3, 4, 5, 6, 7, 8, 9, 10, 11, 12] ++ [99])) :=
  ((c4_pack ⟨[1, 2, 3, 4, 5, 6, 7, 8, 9, 10, 11, 12], [99], []⟩).1
    (by decide) (by decide) (by decide)).2 (by decide)

/-! ### Facts about `unpack` on malformed input (claim C5) -/

/-- C5 counterexample: the empty buffer is shorter than 14 bytes but fails
with the generic `unpack: empty input` error, not with `CorruptData`. -/
theorem c5_counterexample :
    unpack ([] : List Nat) = .error .unpackEmptyInput ∧
    unpack ([] : List Nat) ≠ .error (.corruptData []) ∧
    isCorruptKind .unpackEmptyInput = false := by
  refine ⟨rfl, by decide, rfl⟩

/-- C5 (amended): every non-empty buffer shorter than `1 + nonceSize + 1 =
14` bytes, and every buffer whose leading length byte exceeds the
available payload `len(buf) - 1 - nonceSize`, fails with `CorruptData`
carrying the offending bytes; the empty buffer fails with the generic
`unpack: empty input` error; in particular `[0]` fails with
`CorruptData`. -/
theorem c5_unpack_malformed (packed : List Nat) :
    (packed ≠ [] → packed.length < 14 →
      unpack packed = .error (.corruptData packed)) ∧
    (packed = [] → unpack packed = .error .unpackEmptyInput) ∧
    (∀ p0 rest, packed = p0 :: rest →
      (p0 : Int) > (packed.length : Int) - 1 - 12 →
      unpack packed = .error (.corruptData packed)) ∧
    unpack [0] = .error (.corruptData [0]) := by
  refine ⟨?_, ?_, ?_, by decide⟩
  · intro hne hlen
    match packed with
    | [] => exact absurd rfl hne
    | p0 :: rest =>
      simp only [unpack]
      split
      · rfl
      · next hcond =>
        exfalso
        simp only [List.length_cons] at hlen
        simp only [nonceSz, not_or] at hcond
        omega
  · intro h; subst h; rfl
  · intro p0 rest hp hgt
    subst hp
    simp only [unpack]
    split
    · rfl
    · next hcond =>
      exfalso
      simp only [List.length_cons] at hgt
      simp only [nonceSz, not_or] at hcond
      omega

/-- Witness for C5 (amended) at a concrete short buffer. -/
theorem c5_unpack_malformed_witness :
    unpack [7, 8, 9] = .error (.corruptData [7, 8, 9]) :=
  (c5_unpack_malformed [7, 8, 9]).1 (by decide) (by decide)

/-! ### Base64 alphabet facts -/

lemma decChar_tbl : ∀ s, s < 64 → decChar (tbl s) = some s := by decide

lemma tbl_ne_pad : ∀ s, s < 64 → tbl s ≠ 61 := by decide

lemma tbl_not_space : ∀ s, s < 64 → isSpaceByte (tbl s) = false := by decide

lemma tbl_not_newline : ∀ s, s < 64 → isNewlineByte (tbl s) = false := by decide

/-- Every byte emitted by the base64 encoder is a non-whitespace,
non-newline character (alphabet or `=`). -/
lemma encodeB64_chars (l : List Nat) (hv : bytesValid l) :
    ∀ c ∈ encodeB64 l, isSpaceByte c = false ∧ isNewlineByte c = false := by
  induction l using encodeB64.induct with
  | case1 => simp [encodeB64]
  | case2 a =>
    have ha : a < 256 := hv a (by simp)
    intro c hc
    simp only [encodeB64, List.mem_cons, List.not_mem_nil, or_false] at hc
    rcases hc with rfl | rfl | rfl | rfl
    · exact ⟨tbl_not_space _ (by omega), tbl_not_newline _ (by omega)⟩
    · exact ⟨tbl_not_space _ (by omega), tbl_not_newline _ (by omega)⟩
    · exact ⟨by decide, by decide⟩
    · exact ⟨by decide, by decide⟩
  | case3 a b =>
    have ha : a < 256 := hv a (by simp)
    have hb : b < 256 := hv b (by simp)
    intro c hc
    simp only [encodeB64, List.mem_cons, List.not_mem_nil, or_false] at hc
    rcases hc with rfl | rfl | rfl | rfl
    · exact ⟨tbl_not_space _ (by omega), tbl_not_newline _ (by omega)⟩
    · exact ⟨tbl_not_space _ (by omega), tbl_not_newline _ (by omega)⟩
    · exact ⟨tbl_not_space _ (by omega), tbl_not_newline _ (by omega)⟩
    · exact ⟨by decide, by decide⟩
  | case4 a b c rest ih =>
    have ha : a < 256 := hv a (by simp)
    have hb : b < 256 := hv b (by simp)
    have hc' : c < 256 := hv c (by simp)
    have hrest : bytesValid rest := fun x hx => hv x (by simp [hx])
    intro d hd
    simp only [encodeB64, List.mem_cons] at hd
    rcases hd with rfl | rfl | rfl | rfl | hd
    · exact ⟨tbl_not_space _ (by omega), tbl_not_newline _ (by omega)⟩
    · exact ⟨tbl_not_space _ (by omega), tbl_not_newline _ (by omega)⟩
    · exact ⟨tbl_not_space _ (by omega), tbl_not_newline _ (by omega)⟩
    · exact ⟨tbl_not_space _ (by omega), tbl_not_newline _ (by omega)⟩
    · exact ih hrest d hd

lemma encodeB64_filter (l : List Nat) (hv : bytesValid l) :
    (encodeB64 l).filter (fun b => !(isNewlineByte b)) = encodeB64 l := by
  apply List.filter_eq_self.mpr
  intro b hb
  rw [(encodeB64_chars l hv b hb).2]
  rfl

/-- Decoding inverts encoding on byte-valued input (the core base64
round-trip). -/
lemma decodeGroups_encodeB64 (l : List Nat) (hv : bytesValid l) :
    decodeGroups (encodeB64 l) = .ok l := by
  induction l using encodeB64.induct with
  | case1 => rfl
  | case2 a =>
    have ha : a < 256 := hv a (by simp)
    have h1 : decChar (tbl (a / 4)) = some (a / 4) := decChar_tbl _ (by omega)
    have h2 : decChar (tbl (a % 4 * 16)) = some (a % 4 * 16) :=
      decChar_tbl _ (by omega)
    simp only [encodeB64, decodeGroups, h1, h2]
    simp
    omega
  | case3 a b =>
    have ha : a < 256 := hv a (by simp)
    have hb : b < 256 := hv b (by simp)
    have h1 : decChar (tbl (a / 4)) = some (a / 4) := decChar_tbl _ (by omega)
    have h2 : decChar (tbl (a % 4 * 16 + b / 16)) = some (a % 4 * 16 + b / 16) :=
      decChar_tbl _ (by omega)
    have h3 : decChar (tbl (b % 16 * 4)) = some (b % 16 * 4) :=
      decChar_tbl _ (by omega)
    have h3ne : ¬(tbl (b % 16 * 4) = 61) := tbl_ne_pad _ (by omega)
    simp only [encodeB64, decodeGroups, h1, h2, h3, if_neg h3ne]
    simp
    constructor <;> omega
  | case4 a b c rest ih =>
    have ha : a < 256 := hv a (by simp)
    have hb : b < 256 := hv b (by simp)
    have hc : c < 256 := hv c (by simp)
    have hrest : bytesValid rest := fun x hx => hv x (by simp [hx])
    have h1 : decChar (tbl (a / 4)) = some (a / 4) := decChar_tbl _ (by omega)
    have h2 : decChar (tbl (a % 4 * 16 + b / 16)) = some (a % 4 * 16 + b / 16) :=
      decChar_tbl _ (by omega)
    have h3 : decChar (tbl (b % 16 * 4 + c / 64)) = some (b % 16 * 4 + c / 64) :=
      decChar_tbl _ (by omega)
    have h4 : decChar (tbl (c % 64)) = some (c % 64) := decChar_tbl _ (by omega)
    have h3ne : ¬(tbl (b % 16 * 4 + c / 64) = 61) := tbl_ne_pad _ (by omega)
    have h4ne : ¬(tbl (c % 64) = 61) := tbl_ne_pad _ (by omega)
    simp only [encodeB64, decodeGroups, h1, h2, h3, h4, if_neg h3ne, if_neg h4ne,
      ih hrest]
    simp
    refine ⟨by omega, by omega, by omega⟩

lemma decodeB64_encodeB64 (l : List Nat) (hv : bytesValid l) :
    decodeB64 (encodeB64 l) = .ok l := by
  unfold decodeB64
  rw [encodeB64_filter l hv, decodeGroups_encodeB64 l hv]

/-! ### Whitespace trimming facts -/

lemma dropWhile_space_eq_self (s : List Nat)
    (h : ∀ b ∈ s, isSpaceByte b = false) :
    s.dropWhile isSpaceByte = s := by
  cases s with
  | nil => rfl
  | cons a t =>
    rw [List.dropWhile_cons, if_neg (by rw [h a (List.mem_cons_self a t)]; simp)]

lemma trimSpace_eq_self (s : List Nat) (h : ∀ b ∈ s, isSpaceByte b = false) :
    trimSpace s = s := by
  unfold trimSpace
  rw [dropWhile_space_eq_self s h,
    dropWhile_space_eq_self s.reverse (fun b hb => h b (List.mem_reverse.mp hb)),
    List.reverse_reverse]

lemma trimSpace_pad (s : List Nat) (h : ∀ b ∈ s, isSpaceByte b = false) :
    trimSpace ([32, 32] ++ s ++ [10]) = s := by
  cases s with
  | nil => decide
  | cons a t =>
    unfold trimSpace
    have hcons : ∀ b ∈ a :: t, isSpaceByte b = false := h
    show ((List.dropWhile isSpaceByte
      (32 :: 32 :: (a :: (t ++ [10])))).reverse.dropWhile isSpaceByte).reverse
        = a :: t
    rw [List.dropWhile_cons, if_pos (by decide), List.dropWhile_cons,
      if_pos (by decide), List.dropWhile_cons,
      if_neg (by rw [hcons a (List.mem_cons_self a t)]; simp)]
    have hrev : (a :: (t ++ [10])).reverse = 10 :: (a :: t).reverse := by
      rw [show a :: (t ++ [10]) = (a :: t) ++ [10] from rfl, List.reverse_append]
      rfl
    rw [hrev, List.dropWhile_cons, if_pos (by decide),
      dropWhile_space_eq_self (a :: t).reverse
        (fun b hb => hcons b (List.mem_reverse.mp hb)),
      List.reverse_reverse]

/-! ### Armor round-trip (claim C7) -/

lemma armor_chars (sig packed : List Nat)
    (hsig : ∀ b ∈ sig, isSpaceByte b = false) (hv : bytesValid packed) :
    ∀ b ∈ sig ++ encodeB64 packed, isSpaceByte b = false := by
  intro b hb
  rcases List.mem_append.mp hb with h | h
  · exact hsig b h
  · exact (encodeB64_chars packed hv b h).1

lemma unarmor_armor (sig packed : List Nat)
    (hsig : ∀ b ∈ sig, isSpaceByte b = false) (hv : bytesValid packed) :
    unarmor sig (armor sig packed) = .ok packed := by
  unfold unarmor armor
  rw [trimSpace_eq_self _ (armor_chars sig packed hsig hv)]
  rw [if_neg ?_, List.drop_left, decodeB64_encodeB64 packed hv]
  push_neg
  exact ⟨by simp [List.length_append], List.take_left sig (encodeB64 packed)⟩

lemma unarmor_armor_pad (sig packed : List Nat)
    (hsig : ∀ b ∈ sig, isSpaceByte b = false) (hv : bytesValid packed) :
    unarmor sig ([32, 32] ++ armor sig packed ++ [10]) = .ok packed := by
  unfold unarmor armor
  rw [trimSpace_pad _ (armor_chars sig packed hsig hv)]
  rw [if_neg ?_, List.drop_left, decodeB64_encodeB64 packed hv]
  push_neg
  exact ⟨by simp [List.length_append], List.take_left sig (encodeB64 packed)⟩

/-- C7: `unarmor` inverts `armor` on every byte buffer, also with leading
spaces and a trailing newline around the armored string, and armoring the
empty buffer yields exactly the signature. -/
theorem c7_armor_roundtrip (sig buf : List Nat)
    (hsig : ∀ b ∈ sig, isSpaceByte b = false) (hv : bytesValid buf) :
    unarmor sig (armor sig buf) = .ok buf ∧
    unarmor sig ([32, 32] ++ armor sig buf ++ [10]) = .ok buf ∧
    (buf = [] → armor sig buf = sig) := by
  refine ⟨unarmor_armor sig buf hsig hv, unarmor_armor_pad sig buf hsig hv, ?_⟩
  intro h; subst h
  simp [armor, encodeB64]

/-- Witness for C7 at the default signature and a concrete buffer. -/
theorem c7_armor_roundtrip_witness :
    unarmor defaultSignature (armor defaultSignature [1, 2, 3]) = .ok [1, 2, 3] ∧
    unarmor defaultSignature
      ([32, 32] ++ armor defaultSignature [1, 2, 3] ++ [10]) = .ok [1, 2, 3] ∧
    ([1, 2, 3] = ([] : List Nat) →
      armor defaultSignature [1, 2, 3] = defaultSignature) :=
  c7_armor_roundtrip defaultSignature [1, 2, 3] (by decide) (by decide)

/-! ### `decrypt` on non-encrypted input (claim C6) -/

/-- C6: when the trimmed input is shorter than the signature or does not
start with it, `decrypt` returns the original string together with the
`NotEncrypted` signal, whatever the key; any other `unarmor` failure is a
hard error with an empty string payload. -/
theorem c6_decrypt_not_encrypted (B : GCMImpl) (sig s key : List Nat) :
    ((trimSpace s).length < sig.length ∨ (trimSpace s).take sig.length ≠ sig →
      decrypt B sig s key = (s, some .notEncrypted)) ∧
    (∀ e, unarmor sig s = .error e → e ≠ .notEncrypted →
      decrypt B sig s key = ([], some e)) := by
  constructor
  · intro hcond
    have h : unarmor sig s = .error .notEncrypted := by
      unfold unarmor; rw [if_pos hcond]
    simp only [decrypt, h]
    simp
  · intro e he hne
    simp only [decrypt, he]
    rw [if_neg hne]

/-- Witness for C6: the plain string `"plain text"` comes back unchanged
with `NotEncrypted` even under an empty key, and a valid signature with
malformed base64 (`"SEC.!!!!"`) is a hard error with no string payload. -/
theorem c6_decrypt_not_encrypted_witness :
    decrypt toyGCM defaultSignature
      [112, 108, 97, 105, 110, 32, 116, 101, 120, 116] [] =
      ([112, 108, 97, 105, 110, 32, 116, 101, 120, 116], some .notEncrypted) ∧
    decrypt toyGCM defaultSignature [83, 69, 67, 46, 33, 33, 33, 33] [] =
      ([], some .base64Error) :=
  ⟨(c6_decrypt_not_encrypted toyGCM defaultSignature
      [112, 108, 97, 105, 110, 32, 116, 101, 120, 116] []).1 (by decide),
   (c6_decrypt_not_encrypted toyGCM defaultSignature
      [83, 69, 67, 46, 33, 33, 33, 33] []).2 .base64Error (by decide) (by decide)⟩

/-! ### `encrypt` precondition failures (claim C8) -/

/-- C8: `encrypt` fails with `NoEncryptionKey` on an empty key, with
`InvalidKeySize` on a non-empty key that is not 32 bytes, with the generic
`nothing to encrypt` error on empty plaintext, and with the
data-overflow-kind error of its additional-data check when the additional
data exceeds 255 bytes; in each case no armored string is produced. -/
theorem c8_encrypt_preconditions (B : GCMImpl) (sig plaintext key ad nonce : List Nat) :
    (key = [] → encrypt B sig plaintext key ad nonce = ([], some .noEncryptionKey)) ∧
    (key ≠ [] → key.length ≠ 32 →
      encrypt B sig plaintext key ad nonce = ([], some .invalidKeySz)) ∧
    (key.length = 32 → plaintext = [] →
      encrypt B sig plaintext key ad nonce = ([], some .emptyPlaintext)) ∧
    (key.length = 32 → plaintext ≠ [] → ad.length > 255 →
      encrypt B sig plaintext key ad nonce = ([], some .encryptDataOverflow)) := by
  refine ⟨?_, ?_, ?_, ?_⟩
  · intro hk
    unfold encrypt
    rw [if_pos (by simp [hk])]
  · intro hk hlen
    unfold encrypt
    rw [if_neg (by simpa using hk), if_pos (by simp only [keySz]; omega)]
  · intro hlen hp
    unfold encrypt
    rw [if_neg (by omega), if_neg (by simp only [keySz]; omega),
      if_pos (by simp [hp])]
  · intro hlen hp ha
    unfold encrypt
    rw [if_neg (by omega), if_neg (by simp only [keySz]; omega),
      if_neg (by simpa using hp), if_pos (by simp only [maxDataSz]; omega)]

/-- Witness for C8 at concrete inputs for all four precondition failures. -/
theorem c8_encrypt_preconditions_witness :
    encrypt toyGCM defaultSignature [1] [] [] [0] = ([], some .noEncryptionKey) ∧
    encrypt toyGCM defaultSignature [1] [9, 9] [] [0] = ([], some .invalidKeySz) ∧
    encrypt toyGCM defaultSignature [] (List.replicate 32 7) [] [0] =
      ([], some .emptyPlaintext) ∧
    encrypt toyGCM defaultSignature [1] (List.replicate 32 7)
      (List.replicate 256 0) [0] = ([], some .encryptDataOverflow) :=
  ⟨(c8_encrypt_preconditions toyGCM defaultSignature [1] [] [] [0]).1 rfl,
   (c8_encrypt_preconditions toyGCM defaultSignature [1] [9, 9] [] [0]).2.1
     (by decide) (by decide),
   (c8_encrypt_preconditions toyGCM defaultSignature [] (List.replicate 32 7)
     [] [0]).2.2.1 (by rw [List.length_replicate]) rfl,
   (c8_encrypt_preconditions toyGCM defaultSignature [1] (List.replicate 32 7)
     (List.replicate 256 0) [0]).2.2.2 (by rw [List.length_replicate])
     (by decide) (by rw [List.length_replicate]; omega)⟩

/-! ### The decrypt pipeline on a validly packed, armored message -/

lemma unpack_packBytes (ad nonce ct : List Nat) (had : ad.length ≤ 255)
    (hn : nonce.length = 12) (hct : ct ≠ []) :
    unpack (packBytes ad nonce ct) = .ok ⟨nonce, ct, ad⟩ := by
  have hctl : ct.length ≠ 0 := by simpa using hct
  simp only [packBytes, unpack]
  split
  · next hcond =>
    exfalso
    simp only [nonceSz, List.length_append, hn] at hcond
    omega
  · next hcond =>
    have h1 : (ad ++ nonce ++ ct).drop ad.length = nonce ++ ct := by
      rw [List.append_assoc, List.drop_left]
    have h2 : (nonce ++ ct).take nonceSz = nonce := by
      conv_lhs => rw [show nonceSz = nonce.length by rw [hn, nonceSz]]
      exact List.take_left nonce ct
    have h3 : (ad ++ nonce ++ ct).drop (ad.length + nonceSz) = ct := by
      have hl : ad.length + nonceSz = (ad ++ nonce).length := by
        simp [List.length_append, hn, nonceSz]
      rw [hl, List.drop_left]
    have h4 : (ad ++ nonce ++ ct).take ad.length = ad := by
      rw [List.append_assoc, List.take_left]
    simp only [Except.ok.injEq, Ciphermsg.mk.injEq, h1, h2, h3, h4]
    refine ⟨trivial, trivial, ?_⟩
    by_cases h0 : ad.length > 0
    · rw [if_pos h0]
    · rw [if_neg h0]
      cases ad with
      | nil => rfl
      | cons x t => simp at h0

lemma packBytes_bytesValid (ad nonce ct : List Nat) (had : ad.length ≤ 255)
    (ha : bytesValid ad) (hn : bytesValid nonce) (hc : bytesValid ct) :
    bytesValid (packBytes ad nonce ct) := by
  intro b hb
  simp only [packBytes, List.mem_cons, List.mem_append] at hb
  rcases hb with rfl | (h | h) | h
  · omega
  · exact ha b h
  · exact hn b h
  · exact hc b h

/-- What `decrypt` does on the armored form of a validly packed message:
the signature and base64 layers are undone, the packed buffer splits back
into its fields, and the result is decided by `initGCM` (key size) and the
AEAD open. -/
lemma decrypt_armor (B : GCMImpl) (sig key ad nonce ct : List Nat)
    (hsig : ∀ b ∈ sig, isSpaceByte b = false)
    (hkey : key ≠ [])
    (had : ad.length ≤ 255) (hn : nonce.length = 12) (hct : ct ≠ [])
    (hv : bytesValid (packBytes ad nonce ct)) :
    decrypt B sig (armor sig (packBytes ad nonce ct)) key =
      if key.length = 16 ∨ key.length = 24 ∨ key.length = 32 then
        match (B.gcm key).openFn nonce ct ad with
        | none => ([], some .cipherError)
        | some pt => (pt, none)
      else ([], some (.aesKeySizeError key.length)) := by
  have hu : unarmor sig (armor sig (packBytes ad nonce ct)) =
      .ok (packBytes ad nonce ct) := unarmor_armor sig _ hsig hv
  have hk0 : ¬(key.length = 0) := by simpa using hkey
  simp only [decrypt, hu, unpack_packBytes ad nonce ct had hn hct, initGCM]
  rw [if_neg hk0]
  by_cases hkl : key.length = 16 ∨ key.length = 24 ∨ key.length = 32
  · rw [if_pos hkl, if_pos hkl]
  · rw [if_neg hkl, if_neg hkl]

/-- What `encrypt` returns when every precondition holds. -/
lemma encrypt_ok (B : GCMImpl) (sig pt key ad nonce : List Nat)
    (hkey : key.length = 32) (hpt : pt ≠ []) (had : ad.length ≤ 255)
    (hnonce : nonce ≠ []) (hct : (B.gcm key).sealFn nonce pt ad ≠ []) :
    encrypt B sig pt key ad nonce =
      (armor sig (packBytes ad nonce ((B.gcm key).sealFn nonce pt ad)), none) := by
  have hg : initGCM B key = .ok (B.gcm key) := by
    unfold initGCM; rw [if_pos (by right; right; exact hkey)]
  have hp : pack ⟨nonce, (B.gcm key).sealFn nonce pt ad, ad⟩ =
      .ok (packBytes ad nonce ((B.gcm key).sealFn nonce pt ad)) := by
    unfold pack
    rw [if_neg (by simpa using hnonce), if_neg (by simpa using hct),
      if_neg (by simp only [maxDataSz]; omega)]
  unfold encrypt
  rw [if_neg (by omega), if_neg (by simp only [keySz]; omega),
    if_neg (by simpa using hpt), if_neg (by simp only [maxDataSz]; omega)]
  simp only [hg, hp]

lemma deriveKey_ok_length (salt pass key : List Nat)
    (h : deriveKey salt pass = .ok key) : key.length = 32 := by
  unfold deriveKey at h
  split at h
  · exact DKResult.noConfusion h
  · split at h
    · exact DKResult.noConfusion h
    · split at h
      · exact DKResult.noConfusion h
      · have := DKResult.ok.inj h
        rw [← this]
        simp [keySz]

/-- C1: round-trip through the passphrase entry points.  The hypothesis
`deriveKey salt pass = .ok key` holds exactly for the valid passphrases
(1..=32 bytes, byte-valued); the AEAD hypotheses are the GCM contract at
this message (Go GCM always returns a non-empty tag-bearing ciphertext
and opens its own seal).  Encryption succeeds and decryption under the
same passphrase, salt and signature returns exactly the plaintext. -/
theorem c1_roundtrip (B : GCMImpl) (salt sig pass pt nonce key : List Nat)
    (hsig : ∀ b ∈ sig, isSpaceByte b = false)
    (hkey : deriveKey salt pass = .ok key)
    (hpt : pt ≠ [])
    (hn : nonce.length = 12) (hnv : bytesValid nonce)
    (hctv : bytesValid ((B.gcm key).sealFn nonce pt []))
    (hctne : (B.gcm key).sealFn nonce pt [] ≠ [])
    (hopen : (B.gcm key).openFn nonce ((B.gcm key).sealFn nonce pt []) [] =
      some pt) :
    EncryptWithPassphrase B salt sig pt pass nonce =
      .ret (armor sig (packBytes [] nonce ((B.gcm key).sealFn nonce pt [])),
        none) ∧
    DecryptWithPassphrase B salt sig
      (armor sig (packBytes [] nonce ((B.gcm key).sealFn nonce pt []))) pass =
      .ret (pt, none) := by
  have hkl : key.length = 32 := deriveKey_ok_length salt pass key hkey
  have hnonce_ne : nonce ≠ [] := by
    intro h; rw [h] at hn; simp at hn
  have hkeyne : key ≠ [] := by
    intro h; rw [h] at hkl; simp at hkl
  constructor
  · simp only [EncryptWithPassphrase, hkey]
    rw [encrypt_ok B sig pt key [] nonce hkl hpt (by simp) hnonce_ne hctne]
  · simp only [DecryptWithPassphrase, hkey]
    rw [decrypt_armor B sig key [] nonce _ hsig hkeyne (by simp) hn hctne
      (packBytes_bytesValid [] nonce _ (by simp) (by intro b hb; simp at hb)
        hnv hctv)]
    rw [if_pos (by right; right; exact hkl)]
    simp only [hopen]

/-- Witness for C1: passphrase `[65]`, plaintext `"hi"`, the all-zero
nonce and the toy AEAD; the key below is `deriveKey defaultSalt [65]`. -/
theorem c1_roundtrip_witness :
    EncryptWithPassphrase toyGCM defaultSalt defaultSignature [104, 105] [65]
      [0, 0, 0, 0, 0, 0, 0, 0, 0, 0, 0, 0] =
      .ret (armor defaultSignature (packBytes []
        [0, 0, 0, 0, 0, 0, 0, 0, 0, 0, 0, 0]
        ((toyGCM.gcm [110, 227, 216, 196, 226, 141, 140, 29, 120, 90, 44, 90,
          86, 232, 245, 170, 212, 156, 186, 255, 125, 109, 122, 168, 60, 28,
          127, 57, 118, 98, 155, 228]).sealFn
          [0, 0, 0, 0, 0, 0, 0, 0, 0, 0, 0, 0] [104, 105] [])), none) ∧
    DecryptWithPassphrase toyGCM defaultSalt defaultSignature
      (armor defaultSignature (packBytes []
        [0, 0, 0, 0, 0, 0, 0, 0, 0, 0, 0, 0]
        ((toyGCM.gcm [110, 227, 216, 196, 226, 141, 140, 29, 120, 90, 44, 90,
          86, 232, 245, 170, 212, 156, 186, 255, 125, 109, 122, 168, 60, 28,
          127, 57, 118, 98, 155, 228]).sealFn
          [0, 0, 0, 0, 0, 0, 0, 0, 0, 0, 0, 0] [104, 105] []))) [65] =
      .ret ([104, 105], none) :=
  c1_roundtrip toyGCM defaultSalt defaultSignature [65] [104, 105]
    [0, 0, 0, 0, 0, 0, 0, 0, 0, 0, 0, 0]
    [110, 227, 216, 196, 226, 141, 140, 29, 120, 90, 44, 90, 86, 232, 245,
     170, 212, 156, 186, 255, 125, 109, 122, 168, 60, 28, 127, 57, 118, 98,
     155, 228]
    (by decide) (by decide) (by decide) (by decide) (by decide) (by decide)
    (by decide) (by decide)


/-! ### Tamper detection (claim C2) -/

lemma flipBit_ne_nil (l : List Nat) (j k : Nat) (hj : j < l.length) :
    flipBit l j k ≠ [] := by
  intro h
  have hl : (flipBit l j k).length = l.length := by
    unfold flipBit; exact List.length_set l j _
  rw [h] at hl
  simp at hl
  omega

lemma flipBit_bytesValid (l : List Nat) (j k : Nat) (hv : bytesValid l)
    (hk : k < 8) : bytesValid (flipBit l j k) := by
  intro b hb
  unfold flipBit at hb
  rcases List.mem_or_eq_of_mem_set hb with h | rfl
  · exact hv b h
  · have h1 : l.getD j 0 < 256 := by
      by_cases hj : j < l.length
      · rw [List.getD_eq_getElem l 0 hj]
        exact hv _ (List.getElem_mem hj)
      · rw [List.getD_eq_default l 0 (by omega)]
        omega
    have h2 : (2 : Nat) ^ k ≤ 2 ^ 7 := Nat.pow_le_pow_right (by omega) (by omega)
    have h3 := Nat.xor_lt_two_pow (n := 8) (by omega : l.getD j 0 < 2 ^ 8)
      (by omega : 2 ^ k < 2 ^ 8)
    omega

/-- C2: flipping any single bit of the ciphertext portion of a
successfully produced armored message makes `decrypt` fail with the
decipher-class `CipherFailure` error (given that GCM rejects the tampered
ciphertext, which is its authentication contract); the decipher-class
test `IsDecipherError` holds of it, and decipher-class covers exactly
the `CipherFailure` and `CorruptData` kinds. -/
theorem c2_tamper_detection (B : GCMImpl) (sig key pt ad nonce : List Nat)
    (j k : Nat)
    (hsig : ∀ b ∈ sig, isSpaceByte b = false)
    (hkl : key.length = 32)
    (hpt : pt ≠ []) (had : ad.length ≤ 255) (hadv : bytesValid ad)
    (hn : nonce.length = 12) (hnv : bytesValid nonce)
    (hctv : bytesValid ((B.gcm key).sealFn nonce pt ad))
    (hj : j < ((B.gcm key).sealFn nonce pt ad).length) (hk : k < 8)
    (hopen : (B.gcm key).openFn nonce
      (flipBit ((B.gcm key).sealFn nonce pt ad) j k) ad = none) :
    encrypt B sig pt key ad nonce =
      (armor sig (packBytes ad nonce ((B.gcm key).sealFn nonce pt ad)), none) ∧
    decrypt B sig
      (armor sig (packBytes ad nonce
        (flipBit ((B.gcm key).sealFn nonce pt ad) j k))) key =
      ([], some .cipherError) ∧
    IsDecipherError .cipherError = true ∧
    (∀ e, IsDecipherError e = true ↔ e = .cipherError ∨ isCorruptKind e = true) := by
  have hctne : (B.gcm key).sealFn nonce pt ad ≠ [] := by
    intro h; rw [h] at hj; simp at hj
  have hnonce_ne : nonce ≠ [] := by intro h; rw [h] at hn; simp at hn
  have hkeyne : key ≠ [] := by intro h; rw [h] at hkl; simp at hkl
  refine ⟨?_, ?_, rfl, ?_⟩
  · exact encrypt_ok B sig pt key ad nonce hkl hpt had hnonce_ne hctne
  · rw [decrypt_armor B sig key ad nonce _ hsig hkeyne had hn
      (flipBit_ne_nil _ j k hj)
      (packBytes_bytesValid ad nonce _ had hadv hnv
        (flipBit_bytesValid _ j k hctv hk))]
    rw [if_pos (by right; right; exact hkl)]
    simp only [hopen]
  · intro e
    cases e <;> simp [IsDecipherError, isCorruptKind]

/-- Witness for C2: a concrete 32-byte key, plaintext `"hi"`, additional
data `[1, 2]`, zero nonce, flipping bit 0 of ciphertext byte 0; the toy
AEAD rejects the tampered ciphertext. -/
theorem c2_tamper_detection_witness :
    encrypt toyGCM defaultSignature [104, 105]
      [7, 7, 7, 7, 7, 7, 7, 7, 7, 7, 7, 7, 7, 7, 7, 7, 7, 7, 7, 7, 7, 7, 7,
       7, 7, 7, 7, 7, 7, 7, 7, 7] [1, 2] [0, 0, 0, 0, 0, 0, 0, 0, 0, 0, 0, 0] =
      (armor defaultSignature (packBytes [1, 2]
        [0, 0, 0, 0, 0, 0, 0, 0, 0, 0, 0, 0]
        ((toyGCM.gcm [7, 7, 7, 7, 7, 7, 7, 7, 7, 7, 7, 7, 7, 7, 7, 7, 7, 7,
          7, 7, 7, 7, 7, 7, 7, 7, 7, 7, 7, 7, 7, 7]).sealFn
          [0, 0, 0, 0, 0, 0, 0, 0, 0, 0, 0, 0] [104, 105] [1, 2])), none) ∧
    decrypt toyGCM defaultSignature
      (armor defaultSignature (packBytes [1, 2]
        [0, 0, 0, 0, 0, 0, 0, 0, 0, 0, 0, 0]
        (flipBit ((toyGCM.gcm [7, 7, 7, 7, 7, 7, 7, 7, 7, 7, 7, 7, 7, 7, 7,
          7, 7, 7, 7, 7, 7, 7, 7, 7, 7, 7, 7, 7, 7, 7, 7, 7]).sealFn
          [0, 0, 0, 0, 0, 0, 0, 0, 0, 0, 0, 0] [104, 105] [1, 2]) 0 0)))
      [7, 7, 7, 7, 7, 7, 7, 7, 7, 7, 7, 7, 7, 7, 7, 7, 7, 7, 7, 7, 7, 7, 7,
       7, 7, 7, 7, 7, 7, 7, 7, 7] =
      ([], some .cipherError) ∧
    IsDecipherError .cipherError = true ∧
    (∀ e, IsDecipherError e = true ↔ e = .cipherError ∨ isCorruptKind e = true) :=
  c2_tamper_detection toyGCM defaultSignature
    [7, 7, 7, 7, 7, 7, 7, 7, 7, 7, 7, 7, 7, 7, 7, 7, 7, 7, 7, 7, 7, 7, 7,
     7, 7, 7, 7, 7, 7, 7, 7, 7] [104, 105] [1, 2]
    [0, 0, 0, 0, 0, 0, 0, 0, 0, 0, 0, 0] 0 0
    (by decide) (by decide) (by decide) (by decide) (by decide) (by decide)
    (by decide) (by decide) (by decide) (by decide) (by decide)

/-! ### Key-size behaviour of `decrypt` (claim C10) -/

lemma decodeGroups_error_kind : ∀ l e, decodeGroups l = .error e →
    e = SecError.base64Error := by
  intro l
  induction l using decodeGroups.induct <;> intro e h <;>
    simp_all [decodeGroups] <;> (split at h <;> simp_all)

lemma unarmor_error_kind (sig s : List Nat) (e : SecError)
    (h : unarmor sig s = .error e) :
    e = .notEncrypted ∨ e = .base64Error := by
  unfold unarmor at h
  split at h
  · left
    exact (Except.error.inj h).symm
  · right
    unfold decodeB64 at h
    exact decodeGroups_error_kind _ e h

lemma unpack_error_kind (p : List Nat) (e : SecError)
    (h : unpack p = .error e) :
    e = .unpackEmptyInput ∨ isCorruptKind e = true := by
  match p with
  | [] =>
    left
    have := Except.error.inj h
    exact this.symm
  | p0 :: rest =>
    right
    simp only [unpack] at h
    split at h
    · have := Except.error.inj h
      rw [← this]
      rfl
    · exact Except.noConfusion h

/-- `decrypt` can fail in many ways, but never with the `InvalidKeySize`
sentinel that `encrypt` uses. -/
lemma decrypt_never_invalidKeySz (B : GCMImpl) (sig s key : List Nat) :
    (decrypt B sig s key).2 ≠ some .invalidKeySz := by
  unfold decrypt
  split
  · next e heq =>
    split
    · simp
    · next hne =>
      rcases unarmor_error_kind sig s e heq with rfl | rfl
      · exact absurd rfl hne
      · simp
  · next packed heq =>
    split
    · simp
    · split
      · next e heq2 =>
        rcases unpack_error_kind packed e heq2 with rfl | hc
        · simp
        · cases e <;> simp_all [isCorruptKind]
      · next cm heq2 =>
        split
        · next e heq3 =>
          unfold initGCM at heq3
          split at heq3
          · exact Except.noConfusion heq3
          · have he := Except.error.inj heq3
            rw [← he]
            simp
        · next aead heq3 =>
          split
          · simp
          · simp

/-- C10 (implicit): `decrypt` never returns `InvalidKeySize`.  On a
validly armored and packed message it hands the key straight to cipher
initialisation: 16- and 24-byte keys are silently accepted and fail only
at authentication with the decipher-class `CipherFailure`, while any
other non-empty wrong length surfaces the raw `aes.KeySizeError`, which
is neither `InvalidKeySize` nor decipher-class — asymmetric with
`encrypt`, which rejects every non-32-byte non-empty key up front. -/
theorem c10_decrypt_key_size (B : GCMImpl) (sig key ad nonce ct : List Nat)
    (hsig : ∀ b ∈ sig, isSpaceByte b = false)
    (had : ad.length ≤ 255) (hadv : bytesValid ad)
    (hn : nonce.length = 12) (hnv : bytesValid nonce)
    (hct : ct ≠ []) (hctv : bytesValid ct) :
    (∀ s key2, (decrypt B sig s key2).2 ≠ some .invalidKeySz) ∧
    (key.length = 16 ∨ key.length = 24 →
      (B.gcm key).openFn nonce ct ad = none →
      decrypt B sig (armor sig (packBytes ad nonce ct)) key =
        ([], some .cipherError) ∧ IsDecipherError .cipherError = true) ∧
    (key ≠ [] → key.length ≠ 16 → key.length ≠ 24 → key.length ≠ 32 →
      decrypt B sig (armor sig (packBytes ad nonce ct)) key =
        ([], some (.aesKeySizeError key.length)) ∧
      IsDecipherError (.aesKeySizeError key.length) = false ∧
      SecError.aesKeySizeError key.length ≠ .invalidKeySz) ∧
    (∀ pt2 key2 ad2 nonce2, key2 ≠ [] → key2.length ≠ 32 →
      encrypt B sig pt2 key2 ad2 nonce2 = ([], some .invalidKeySz)) := by
  refine ⟨fun s key2 => decrypt_never_invalidKeySz B sig s key2, ?_, ?_, ?_⟩
  · intro hkl hopen
    have hkeyne : key ≠ [] := by
      intro h; rw [h] at hkl; simp at hkl
    rw [decrypt_armor B sig key ad nonce ct hsig hkeyne had hn hct
      (packBytes_bytesValid ad nonce ct had hadv hnv hctv)]
    rw [if_pos (by tauto)]
    simp [hopen, IsDecipherError]
  · intro hkeyne h16 h24 h32
    rw [decrypt_armor B sig key ad nonce ct hsig hkeyne had hn hct
      (packBytes_bytesValid ad nonce ct had hadv hnv hctv)]
    rw [if_neg (by push_neg; exact ⟨h16, h24, h32⟩)]
    simp [IsDecipherError]
  · intro pt2 key2 ad2 nonce2 hne hlen
    unfold encrypt
    rw [if_neg (by simpa using hne), if_pos (by simp only [keySz]; omega)]

/-- Witness for C10: a 16-byte key reaches authentication and fails
decipher-class, a 5-byte key surfaces the raw key-size error, and
`encrypt` rejects a 2-byte key with `InvalidKeySize`. -/
theorem c10_decrypt_key_size_witness :
    (decrypt toyGCM defaultSignature [83, 69, 67, 46] []).2 ≠
      some .invalidKeySz ∧
    (decrypt toyGCM defaultSignature
      (armor defaultSignature (packBytes []
        [0, 0, 0, 0, 0, 0, 0, 0, 0, 0, 0, 0] [5]))
      [1, 1, 1, 1, 1, 1, 1, 1, 1, 1, 1, 1, 1, 1, 1, 1] =
      ([], some .cipherError) ∧ IsDecipherError .cipherError = true) ∧
    (decrypt toyGCM defaultSignature
      (armor defaultSignature (packBytes []
        [0, 0, 0, 0, 0, 0, 0, 0, 0, 0, 0, 0] [5]))
      [1, 2, 3, 4, 5] = ([], some (.aesKeySizeError 5)) ∧
      IsDecipherError (.aesKeySizeError 5) = false ∧
      SecError.aesKeySizeError 5 ≠ .invalidKeySz) ∧
    encrypt toyGCM defaultSignature [104] [9, 9] [] [0] =
      ([], some .invalidKeySz) := by
  have h16 := c10_decrypt_key_size toyGCM defaultSignature
    [1, 1, 1, 1, 1, 1, 1, 1, 1, 1, 1, 1, 1, 1, 1, 1] []
    [0, 0, 0, 0, 0, 0, 0, 0, 0, 0, 0, 0] [5]
    (by decide) (by decide) (by decide) (by decide) (by decide) (by decide)
    (by decide)
  have h5 := c10_decrypt_key_size toyGCM defaultSignature
    [1, 2, 3, 4, 5] [] [0, 0, 0, 0, 0, 0, 0, 0, 0, 0, 0, 0] [5]
    (by decide) (by decide) (by decide) (by decide) (by decide) (by decide)
    (by decide)
  exact ⟨h16.1 [83, 69, 67, 46] [],
    h16.2.1 (Or.inl (by decide)) (by decide),
    h5.2.2.1 (by decide) (by decide) (by decide) (by decide),
    h16.2.2.2 [104] [9, 9] [] [0] (by decide) (by decide)⟩

end Secure
